import Mathlib

/-!
Verification development for the steal-tools bundling pipeline
(`lib/build/multi.js`, `lib/bundle/make_bundles_config.js`,
`lib/build/helpers/cjs.js`).

The JavaScript data model and operations are shallowly embedded as
executable Lean definitions.  Machine-level concerns (promises, the
file system, winston logging) are modelled explicitly: the promise
returned by the `multi.js` export is an `Except` value together with
the list of logged strings, and JavaScript array aliasing is modelled
by a small reference heap.
-/

/-- An ES6 load record as used by `make_bundles_config.js`: only its
`name` field is read there (`node.load.name`). -/
structure LoadRec where
  name : String

/-- A graph `Node` as described at the top of `multi.js`: the bundle
config emitter only reads `node.load`. -/
structure NodeRec where
  load : LoadRec

/-- A named bundle as consumed by `make_bundles_config.js`: a `name`
(assigned by `nameBundle`) and an ordered list of nodes. -/
structure BundleRec where
  name : String
  nodes : List NodeRec

/-- The `configuration.loader` fields read by `make_bundles_config.js`. -/
structure LoaderCfg where
  bundlesPath : Option String

/-- The `configuration.options` fields read by `make_bundles_config.js`. -/
structure OptionsCfg where
  bundleSteal : Bool

/-- The parts of the configuration object (built by
`configuration/make.js`) that `make_bundles_config.js` reads. -/
structure ConfigurationRec where
  options : OptionsCfg
  loader : LoaderCfg
  bundlesPathURL : String

/-- JavaScript truthiness of an optional string value: `undefined` and
the empty string are falsy (`if(!configuration.loader.bundlesPath)`). -/
def jsTruthy : Option String → Bool
  | none => false
  | some s => !(s == "")

/-- The text produced by the `util.format` call in `getBundlesPaths`
(`make_bundles_config.js`), with both `%s` holes filled by the
bundles-path URL.  The strings are copied verbatim from the source,
including the missing dot in `"%s/*css"`. -/
def bundlePathsText (u : String) : String :=
  "System.paths[\"bundles/*.css\"] =\"" ++ u ++ "/*css\";\n" ++
    "System.paths[\"bundles/*\"] = \"" ++ u ++ "/*.js\";\n"

/-- `getBundlesPaths(configuration)` from `make_bundles_config.js`:
returns `""` when `configuration.loader.bundlesPath` is falsy,
otherwise the two `System.paths` statements built from
`configuration.bundlesPathURL`. -/
def getBundlesPaths (c : ConfigurationRec) : String :=
  if jsTruthy c.loader.bundlesPath then bundlePathsText c.bundlesPathURL else ""

/-- The module names of a bundle's nodes, in node order:
`bundle.nodes.map(function(node){ return node.load.name; })`. -/
def nodeNames (b : BundleRec) : List String :=
  b.nodes.map fun n => n.load.name

/-- JavaScript object property assignment `obj[k] = v` on an object
modelled as an association list: an existing key keeps its position
and its value is overwritten; a new key is appended. -/
def objInsert (m : List (String × List String)) (k : String) (v : List String) :
    List (String × List String) :=
  if m.any (fun p => p.1 == k) then
    m.map fun p => if p.1 == k then (k, v) else p
  else m ++ [(k, v)]

/-- JavaScript object property read `obj[k]` on the association-list
model. -/
def jsGet (m : List (String × List String)) (k : String) : Option (List String) :=
  (m.find? fun p => p.1 == k).map fun p => p.2

/-- The `bundlesConfig` object built by the `forEach` loop of
`make_bundles_config.js`: `bundlesConfig[bundle.name] = bundle.nodes.map(...)`. -/
def bundlesConfigOf (bs : List BundleRec) : List (String × List String) :=
  bs.foldl (fun m b => objInsert m b.name (nodeNames b)) []

/-- `JSON.stringify` of a string array (no escaping is needed for the
module names handled here). -/
def jsonArr (v : List String) : String :=
  "[" ++ String.intercalate "," (v.map fun s => "\"" ++ s ++ "\"") ++ "]"

/-- `JSON.stringify` of the `bundlesConfig` object. -/
def jsonStringify (m : List (String × List String)) : String :=
  "\x7b" ++ String.intercalate "," (m.map fun p => "\"" ++ p.1 ++ "\":" ++ jsonArr p.2) ++ "\x7d"

/-- The bundle list the config emitter iterates over:
`var bundledBundles = bundles.slice(0); if(configuration.options.bundleSteal){ bundledBundles.shift(); }`. -/
def includedBundles (bundles : List BundleRec) (c : ConfigurationRec) : List BundleRec :=
  if c.options.bundleSteal then bundles.drop 1 else bundles

/-- The node object returned by `make_bundles_config.js`. -/
structure OutNode where
  load : LoadRec
  minifiedSource : String

/-- The exported function of `make_bundles_config.js` as a pure
function of the bundle list and the configuration. -/
def makeBundlesConfig (bundles : List BundleRec) (configuration : ConfigurationRec) : OutNode :=
  { load := { name := "[system-bundles-config]" },
    minifiedSource :=
      getBundlesPaths configuration ++ "System.bundles = " ++
        jsonStringify (bundlesConfigOf (includedBundles bundles configuration)) ++ ";" }

/-- A heap of JavaScript array objects, used to model aliasing: a
reference is an index, `next` is the first unallocated index. -/
structure RefHeap where
  mem : Nat → List BundleRec
  next : Nat

/-- Dereference an array reference. -/
def heapGet (h : RefHeap) (r : Nat) : List BundleRec :=
  h.mem r

/-- Allocate a fresh array object holding `a`; returns the new heap and
the fresh reference. -/
def heapAlloc (h : RefHeap) (a : List BundleRec) : RefHeap × Nat :=
  (⟨fun x => if x = h.next then a else h.mem x, h.next + 1⟩, h.next)

/-- Overwrite the array object behind reference `r` in place. -/
def heapSet (h : RefHeap) (r : Nat) (a : List BundleRec) : RefHeap :=
  ⟨fun x => if x = r then a else h.mem x, h.next⟩

/-- `make_bundles_config.js` with JavaScript aliasing made explicit:
the caller passes a reference to its bundles array; `bundles.slice(0)`
allocates a copy and `bundledBundles.shift()` mutates only that copy. -/
def makeBundlesConfigHeap (h : RefHeap) (bundlesRef : Nat) (c : ConfigurationRec) :
    OutNode × RefHeap :=
  let alloc := heapAlloc h (heapGet h bundlesRef)
  let h1 := alloc.1
  let copyRef := alloc.2
  let h2 := if c.options.bundleSteal then
      heapSet h1 copyRef (List.drop 1 (heapGet h1 copyRef))
    else h1
  let out : OutNode :=
    { load := { name := "[system-bundles-config]" },
      minifiedSource :=
        getBundlesPaths c ++ "System.bundles = " ++
          jsonStringify (bundlesConfigOf (heapGet h2 copyRef)) ++ ";" }
  (out, h2)

/-- The part of the build `config` argument of `multi.js` read by the
flattening call. -/
structure BuildConfig where
  bundleDepth : Option Int

/-- The second argument of the `flattenBundle` call in `multi.js`
(line 153): the JavaScript expression `config.bundleDepth || 3`, where
an absent `bundleDepth` and the number `0` are both falsy. -/
def flattenDepthArg (c : BuildConfig) : Int :=
  match c.bundleDepth with
  | none => 3
  | some v => if v = 0 then 3 else v

/-- The error value reaching the final `.catch` handler of `multi.js`. -/
structure PipelineError where
  message : String
  stack : String

/-- The promise returned by the `multi.js` export, as a function of the
outcome of the `then`-chain body (graph construction through writing).
The result pairs what the caller's promise settles to with the list of
strings logged by `winston`.  The source catch handler is
`function(e){ winston.error(e.message, e.stack); }`: it logs and
returns `undefined`, so the promise fulfills with `none`. -/
def multiExports (α : Type) (stageResult : Except PipelineError α) :
    Except PipelineError (Option α) × List String :=
  match stageResult with
  | Except.ok v => (Except.ok (some v), [])
  | Except.error e => (Except.ok none, [e.message, e.stack])

/-- The stages executed by the `then`-callback body of `multi.js`, in
source order.  `graph` is `makeBundleGraph`, `pluckConfig` and
`pluckDev` the two `pluck` calls, `ordering` the per-root `order` loop,
`extract` is `makeBundle`, `emitConfig` is `makeBundlesConfig`. -/
inductive PipelineStage where
  | graph
  | pluckConfig
  | pluckDev
  | ordering
  | transpileStage
  | minifyStage
  | pluckMain
  | pluckMainOnly
  | minifyMaster
  | extract
  | flatten
  | split
  | name
  | emitConfig
  | addSteal
  | traceur
  | write
deriving DecidableEq, Repr

/-- Pipeline state paired with the trace of stages run so far. -/
structure TracedState (σ : Type) where
  st : σ
  tr : List PipelineStage

/-- Run one stage: apply its state transformer and record it. -/
def stepT {σ : Type} (fs : PipelineStage → σ → σ) (s : PipelineStage)
    (t : TracedState σ) : TracedState σ :=
  ⟨fs s t.st, t.tr ++ [s]⟩

/-- Run a stage guarded by a boolean (the `if(minify)`,
`if(options.bundleSteal)` and `if(hasES6modules)` guards). -/
def stepIfT {σ : Type} (b : Bool) (fs : PipelineStage → σ → σ) (s : PipelineStage)
    (t : TracedState σ) : TracedState σ :=
  if b then stepT fs s t else t

/-- The options of `multi.js` after the `_.assign` defaults, restricted
to the fields that guard stages. -/
structure MultiOptions where
  minify : Bool
  bundleSteal : Bool

/-- The sequencing of the `then`-callback body of `multi.js`
(lines 95-167), abstracted over the per-stage state transformers `fs`:
each stage is applied in the order it appears in the source. -/
def multiRun {σ : Type} (opts : MultiOptions) (hasES6modules : Bool)
    (fs : PipelineStage → σ → σ) (init : σ) : TracedState σ :=
  stepT fs .write <|
  stepIfT hasES6modules fs .traceur <|
  stepIfT opts.bundleSteal fs .addSteal <|
  stepT fs .emitConfig <|
  stepT fs .name <|
  stepT fs .split <|
  stepT fs .flatten <|
  stepT fs .extract <|
  stepIfT opts.minify fs .minifyMaster <|
  stepT fs .pluckMainOnly <|
  stepT fs .pluckMain <|
  stepIfT opts.minify fs .minifyStage <|
  stepT fs .transpileStage <|
  stepT fs .ordering <|
  stepT fs .pluckDev <|
  stepT fs .pluckConfig <|
  stepT fs .graph ⟨init, []⟩

/-- The seven stages named by the pipeline contract: graph
construction, ordering, extraction, flattening, splitting, naming,
config emission. -/
def isCoreStage : PipelineStage → Bool
  | .graph => true
  | .ordering => true
  | .extract => true
  | .flatten => true
  | .split => true
  | .name => true
  | .emitConfig => true
  | _ => false

/-- A dependency-graph node as seen by the extractor: its module name,
the set of entry-point bundles that need it (`node.bundles`), and its
minified size. -/
structure GNode where
  name : String
  bundles : List String
  size : Nat
deriving DecidableEq, Repr

/-- A bundle graph as described in `multi.js`: nodes, the entry-point
bundles it satisfies, its aggregate size, and the name assigned by the
namer. -/
structure BundleS where
  bundles : List String
  nodes : List GNode
  size : Nat
  name : String
deriving DecidableEq, Repr

/-- Aggregate minified size of a node group. -/
def sizesSum (ns : List GNode) : Nat :=
  ns.foldl (fun a n => a + n.size) 0

/-- Modelled from the spec: grouping step of the most-shared-subset
extractor (`lib/bundle/make_bundle.js` is not under `src/`; only its
call site in `multi.js` is).  Nodes group together exactly when their
entry-point-bundle sets are identical; groups keep first-encounter
order and each group keeps its nodes in graph order. -/
def groupInsert (gs : List (List String × List GNode)) (n : GNode) :
    List (List String × List GNode) :=
  if gs.any (fun g => g.1 == n.bundles) then
    gs.map fun g => if g.1 == n.bundles then (g.1, g.2 ++ [n]) else g
  else gs ++ [(n.bundles, [n])]

/-- Modelled from the spec: all groups of the remaining graph. -/
def groupsOf (nodes : List GNode) : List (List String × List GNode) :=
  nodes.foldl groupInsert []

/-- Modelled from the spec: a group's value, the number of entry
points sharing it times its aggregate size. -/
def groupValue (g : List String × List GNode) : Nat :=
  g.1.length * sizesSum g.2

/-- Modelled from the spec: the documented deterministic tie-break
order — larger value, then larger entry-point-set cardinality, then
larger aggregate size, then first-encountered. -/
def betterGroup (a b : List String × List GNode) : Bool :=
  groupValue a > groupValue b ||
    (groupValue a == groupValue b &&
      (a.1.length > b.1.length ||
        (a.1.length == b.1.length && sizesSum a.2 > sizesSum b.2)))

/-- Modelled from the spec: select the best group; the incumbent wins
ties, so the first-encountered group is kept. -/
def selectBest : List (List String × List GNode) → Option (List String × List GNode)
  | [] => none
  | g :: gs => some (gs.foldl (fun best h => if betterGroup h best then h else best) g)

/-- Modelled from the spec: the iterative greedy extraction loop —
extract the best group as a bundle, remove its nodes, repeat.  Fueled
by the node count; each iteration removes the whole selected group, so
the fuel suffices. -/
def makeBundleAux : Nat → List GNode → List BundleS
  | 0, _ => []
  | Nat.succ fuel, nodes =>
    match selectBest (groupsOf nodes) with
    | none => []
    | some g =>
      { bundles := g.1, nodes := g.2, size := sizesSum g.2, name := "" } ::
        makeBundleAux fuel (nodes.filter fun m => !(m.bundles == g.1))

/-- Modelled from the spec: `makeBundle(dependencyGraph)` — partition
the graph into bundles by repeated most-shared-subset extraction. -/
def makeBundle (graph : List GNode) : List BundleS :=
  makeBundleAux graph.length graph

/-- Modelled from the spec: `nameBundle` (`lib/bundle/name.js` is not
under `src/`) — a deterministic, collision-free name computed from the
bundle's entry-point set. -/
def nameBundle (b : BundleS) : BundleS :=
  { b with name := String.intercalate "!" b.bundles }

/-- The extraction-through-naming pipeline of `multi.js`: make the
bundles, then name each one (`splitBundles.forEach(nameBundle)`). -/
def extractAndName (graph : List GNode) : List BundleS :=
  (makeBundle graph).map nameBundle

/-- A tiny concrete graph used as an evaluation witness: modules `a`
(shared by both apps), `b` (app1 only), `c` (app2 only). -/
def sampleGraph : List GNode :=
  [⟨"a", ["app1", "app2"], 5⟩, ⟨"b", ["app1"], 3⟩, ⟨"c", ["app2"], 2⟩]

/-- Prefix test on character lists (JavaScript `indexOf` anchored at a
position). -/
def startsWithChars : List Char → List Char → Bool
  | [], _ => true
  | _ :: _, [] => false
  | a :: as, b :: bs => a == b && startsWithChars as bs

/-- Substring test on character lists: `hay.indexOf(needle) >= 0`. -/
def containsChars (needle : List Char) : List Char → Bool
  | [] => startsWithChars needle []
  | b :: bs => startsWithChars needle (b :: bs) || containsChars needle bs

/-- The metadata of a load record as read by the cjs helper's ignore
predicate (`load.metadata.format`). -/
structure MetadataC where
  format : Option String

/-- A load record as read by the cjs helper's ignore predicate. -/
structure LoadC where
  address : String
  metadata : MetadataC

/-- An ignore predicate `(name, load) => boolean`. -/
abbrev IgnorePred : Type := String → LoadC → Bool

/-- The characters of the literal `"/node_modules/"` tested by the cjs
helper. -/
def nodeModulesChars : List Char :=
  "/node_modules/".data

/-- The first ignore predicate built by `cjs.js`'s `ignore` helper:
`if(load.address.indexOf("/node_modules/") >= 0 || load.metadata.format === "defined") { return true }`
(a non-matching call returns `undefined`, which is falsy). -/
def cjsIgnoreHead (_modName : String) (load : LoadC) : Bool :=
  if containsChars nodeModulesChars load.address.data ||
      load.metadata.format == some "defined" then
    true
  else false

/-- The list returned by `cjs.js`'s `ignore(additional)`:
`[function(name, load){...}].concat(additional || [])`. -/
def cjsIgnore (additional : Option (List IgnorePred)) : List IgnorePred :=
  [cjsIgnoreHead] ++ additional.getD []

/-- A concrete two-bundle list with distinct names, used as witness
input for the manifest theorems. -/
def sampleBundles : List BundleRec :=
  [⟨"b1", [⟨⟨"m1"⟩⟩, ⟨⟨"m2"⟩⟩]⟩, ⟨"b2", [⟨⟨"m3"⟩⟩]⟩]

/-- A concrete configuration with `bundleSteal` enabled and no
`bundlesPath`. -/
def sampleCfgSteal : ConfigurationRec :=
  ⟨⟨true⟩, ⟨none⟩, ""⟩

/-- A concrete heap whose only allocated array (reference 0) holds
`sampleBundles`. -/
def sampleHeap : RefHeap :=
  ⟨fun r => if r = 0 then sampleBundles else [], 1⟩

/-- Assigning a key that is not yet present appends the pair. -/
theorem objInsert_not_mem (m : List (String × List String)) (k : String)
    (v : List String) (h : k ∉ m.map Prod.fst) :
    objInsert m k v = m ++ [(k, v)] := by
  have hc : ¬ (m.any (fun p => p.1 == k) = true) := by
    simp only [List.any_eq_true, beq_iff_eq]
    rintro ⟨p, hp, rfl⟩
    exact h (List.mem_map_of_mem Prod.fst hp)
  unfold objInsert
  rw [if_neg hc]

/-- The `forEach` loop over a list of bundles with pairwise-distinct
names builds exactly the association list of (name, module names)
pairs, in bundle order. -/
theorem foldl_objInsert_eq (bs : List BundleRec) :
    ∀ acc : List (String × List String),
      (acc.map Prod.fst ++ bs.map BundleRec.name).Nodup →
      bs.foldl (fun m b => objInsert m b.name (nodeNames b)) acc
        = acc ++ bs.map (fun b => (b.name, nodeNames b)) := by
  induction bs with
  | nil =>
    intro acc _
    simp
  | cons b t ih =>
    intro acc h
    have hmem : b.name ∉ acc.map Prod.fst := by
      rw [List.nodup_append] at h
      intro hin
      exact h.2.2 hin (by simp)
    simp only [List.foldl_cons]
    rw [objInsert_not_mem acc b.name (nodeNames b) hmem]
    rw [ih (acc ++ [(b.name, nodeNames b)]) (by simpa [List.append_assoc] using h)]
    simp

/-- With pairwise-distinct bundle names, `bundlesConfigOf` is the
association list of (name, module names) pairs in bundle order. -/
theorem bundlesConfigOf_eq (bs : List BundleRec)
    (h : (bs.map BundleRec.name).Nodup) :
    bundlesConfigOf bs = bs.map fun b => (b.name, nodeNames b) := by
  have := foldl_objInsert_eq bs [] (by simpa using h)
  simpa [bundlesConfigOf] using this

/-- Property read on the association list of a distinct-name bundle
list: each bundle's name maps to its own module names. -/
theorem jsGet_map_eq (bs : List BundleRec)
    (h : (bs.map BundleRec.name).Nodup) (b : BundleRec) (hb : b ∈ bs) :
    jsGet (bs.map fun x => (x.name, nodeNames x)) b.name = some (nodeNames b) := by
  induction bs with
  | nil => cases hb
  | cons a t ih =>
    rcases List.mem_cons.mp hb with rfl | hb'
    · simp [jsGet, List.find?]
    · have hna : a.name ∉ t.map BundleRec.name := by
        simp only [List.map_cons, List.nodup_cons] at h
        exact h.1
      have hne : (a.name == b.name) = false := by
        rw [beq_eq_false_iff_ne]
        intro heq
        exact hna (heq ▸ List.mem_map_of_mem BundleRec.name hb')
      have hnd : (t.map BundleRec.name).Nodup := by
        simp only [List.map_cons, List.nodup_cons] at h
        exact h.2
      simpa [jsGet, List.find?, hne] using ih hnd hb'

/-- Property read of an absent key returns `undefined`. -/
theorem jsGet_eq_none (m : List (String × List String)) (k : String)
    (h : k ∉ m.map Prod.fst) :
    jsGet m k = none := by
  have : m.find? (fun p => p.1 == k) = none := by
    rw [List.find?_eq_none]
    intro p hp hpk
    rw [beq_iff_eq] at hpk
    exact h (hpk ▸ List.mem_map_of_mem Prod.fst hp)
  simp [jsGet, this]

/-- `startsWithChars n h` holds exactly when `n` is a prefix of `h`. -/
theorem startsWithChars_iff (n : List Char) :
    ∀ h : List Char, startsWithChars n h = true ↔ ∃ t, h = n ++ t := by
  induction n with
  | nil =>
    intro h
    simp [startsWithChars]
  | cons a as ih =>
    intro h
    cases h with
    | nil => simp [startsWithChars]
    | cons b bs =>
      simp only [startsWithChars, Bool.and_eq_true, beq_iff_eq, ih bs]
      constructor
      · rintro ⟨rfl, t, rfl⟩
        exact ⟨t, rfl⟩
      · rintro ⟨t, heq⟩
        simp only [List.cons_append] at heq
        injection heq with h1 h2
        exact ⟨h1.symm, t, h2⟩

/-- `containsChars n h` holds exactly when `n` occurs as a contiguous
substring of `h` (the meaning of `h.indexOf(n) >= 0`). -/
theorem containsChars_iff (n : List Char) :
    ∀ h : List Char, containsChars n h = true ↔ ∃ p q, h = p ++ n ++ q := by
  intro h
  induction h with
  | nil =>
    simp only [containsChars, startsWithChars_iff]
    constructor
    · rintro ⟨t, ht⟩
      have hn := List.append_eq_nil.mp ht.symm
      exact ⟨[], [], by simp [hn.1]⟩
    · rintro ⟨p, q, hpq⟩
      have h1 := List.append_eq_nil.mp hpq.symm
      have h2 := List.append_eq_nil.mp h1.1
      exact ⟨[], by simp [h2.2]⟩
  | cons b bs ih =>
    simp only [containsChars, Bool.or_eq_true, startsWithChars_iff, ih]
    constructor
    · rintro (⟨t, ht⟩ | ⟨p, q, hpq⟩)
      · exact ⟨[], t, by simpa using ht⟩
      · exact ⟨b :: p, q, by simp [hpq]⟩
    · rintro ⟨p, q, hpq⟩
      cases p with
      | nil => exact Or.inl ⟨q, by simpa using hpq⟩
      | cons x xs =>
        right
        simp only [List.cons_append] at hpq
        injection hpq with _ h2
        exact ⟨xs, q, h2⟩

/-- The head predicate of the cjs `ignore` helper accepts exactly the
loads whose address contains `/node_modules/` or whose metadata format
is `"defined"`. -/
theorem cjsIgnoreHead_iff (modName : String) (load : LoadC) :
    cjsIgnoreHead modName load = true ↔
      (∃ p q, load.address.data = p ++ nodeModulesChars ++ q) ∨
        load.metadata.format = some "defined" := by
  unfold cjsIgnoreHead
  by_cases hC : (containsChars nodeModulesChars load.address.data ||
      load.metadata.format == some "defined") = true
  · rw [if_pos hC]
    simp only [true_iff]
    simp only [Bool.or_eq_true] at hC
    rcases hC with hc | hf
    · exact Or.inl ((containsChars_iff nodeModulesChars load.address.data).mp hc)
    · exact Or.inr (beq_iff_eq.mp hf)
  · rw [if_neg hC]
    simp only [Bool.false_eq_true, false_iff]
    rintro (⟨p, q, hpq⟩ | hf)
    · apply hC
      simp only [Bool.or_eq_true]
      exact Or.inl ((containsChars_iff nodeModulesChars load.address.data).mpr ⟨p, q, hpq⟩)
    · apply hC
      simp only [Bool.or_eq_true]
      exact Or.inr (beq_iff_eq.mpr hf)

/-- C10: the first element of the list returned by the cjs helper's
`ignore` returns true exactly when the load's address contains the
substring `/node_modules/` or the load's `metadata.format` equals
`"defined"`; caller-supplied additional predicates follow it
unchanged. -/
theorem c10_cjs_ignore :
    ∀ (additional : Option (List IgnorePred)) (modName : String) (load : LoadC),
      ((cjsIgnore additional).headD (fun _ _ => false) modName load = true ↔
        (∃ p q, load.address.data = p ++ nodeModulesChars ++ q) ∨
          load.metadata.format = some "defined")
      ∧ List.tail (cjsIgnore additional) = additional.getD [] := by
  intro additional modName load
  exact ⟨cjsIgnoreHead_iff modName load, rfl⟩

/-- C1 counterexample: at a concrete input where the pipeline body
raises an error, the export of `multi.js` does not surface the error
to the caller: the returned promise fulfills with `undefined` (the
catch handler logs the message and stack and swallows the error). -/
theorem c1_catch_counterexample :
    multiExports Unit (Except.error ⟨"boom", "trace"⟩)
      = (Except.ok none, ["boom", "trace"]) := by
  rfl

/-- C1 (amended): every error raised inside the pipeline body is
caught by the final catch handler of `multi.js`, which logs the
error's message and stack and returns `undefined`; the caller's
promise fulfills with `undefined` and no error surfaces. -/
theorem c1_amended_catch_swallows :
    ∀ (α : Type) (e : PipelineError),
      multiExports α (Except.error e) = (Except.ok none, [e.message, e.stack]) := by
  intro α e
  rfl

/-- C2: the extraction-through-naming pipeline is a deterministic
function of the dependency graph: two runs on identical graphs (same
node list, same per-node entry-point sets and sizes) produce the same
bundle sequence with the same membership and the same names. -/
theorem c2_extract_deterministic (g1 g2 : List GNode) (h : g1 = g2) :
    extractAndName g1 = extractAndName g2 := by
  rw [h]

/-- Witness for C2 at the concrete three-node sample graph. -/
theorem c2_extract_deterministic_witness :
    sampleGraph = sampleGraph ∧ extractAndName sampleGraph = extractAndName sampleGraph :=
  ⟨rfl, c2_extract_deterministic sampleGraph sampleGraph rfl⟩

/-- Concrete evaluation of the modelled extractor on the spec's worked
example: the shared group is extracted first, then the two
entry-exclusive groups, each named from its entry-point set. -/
theorem extractAndName_sample_eval :
    extractAndName sampleGraph =
      [⟨["app1", "app2"], [⟨"a", ["app1", "app2"], 5⟩], 5, "app1!app2"⟩,
        ⟨["app1"], [⟨"b", ["app1"], 3⟩], 3, "app1"⟩,
        ⟨["app2"], [⟨"c", ["app2"], 2⟩], 2, "app2"⟩] := by
  rfl

/-- C4: when `bundleDepth` is unspecified, the `flattenBundle` call in
`multi.js` receives a maximum depth of exactly 3. -/
theorem c4_default_flatten_depth (c : BuildConfig) (h : c.bundleDepth = none) :
    flattenDepthArg c = 3 := by
  unfold flattenDepthArg
  rw [h]

/-- Witness for C4 at the concrete configuration with no `bundleDepth`. -/
theorem c4_default_flatten_depth_witness :
    (BuildConfig.mk none).bundleDepth = none ∧ flattenDepthArg ⟨none⟩ = 3 :=
  ⟨rfl, c4_default_flatten_depth ⟨none⟩ rfl⟩

/-- C5 counterexample: with `bundleDepth = 0` the pipeline does not
fail; `config.bundleDepth || 3` evaluates to the substituted default 3
and flattening proceeds (no `InvalidConfiguration` error exists in the
code). -/
theorem c5_zero_depth_counterexample : flattenDepthArg ⟨some 0⟩ = 3 := by
  rfl

/-- C5 (amended): a zero `bundleDepth` is falsy in JavaScript, so the
flattening call silently substitutes the default depth 3; any nonzero
depth, including negative ones, is passed to `flattenBundle`
unchanged; no configuration error is raised. -/
theorem c5_amended_depth_fallback :
    ∀ v : Int, flattenDepthArg ⟨some v⟩ = if v = 0 then 3 else v := by
  intro v
  rfl

/-- C3: the emitted configuration node serializes, after the optional
paths prefix, a `System.bundles` assignment whose object maps each
included bundle's name to exactly the ordered list of its nodes'
module names (bundle names are pairwise distinct, as the namer
guarantees). -/
theorem c3_manifest_contents (bs : List BundleRec) (cfg : ConfigurationRec)
    (h : ((includedBundles bs cfg).map BundleRec.name).Nodup) :
    (makeBundlesConfig bs cfg).minifiedSource
        = getBundlesPaths cfg ++ "System.bundles = " ++
            jsonStringify (bundlesConfigOf (includedBundles bs cfg)) ++ ";"
      ∧ ∀ b ∈ includedBundles bs cfg,
          jsGet (bundlesConfigOf (includedBundles bs cfg)) b.name = some (nodeNames b) := by
  refine ⟨rfl, ?_⟩
  intro b hb
  rw [bundlesConfigOf_eq _ h]
  exact jsGet_map_eq _ h b hb

/-- Witness for C3 at the concrete two-bundle list with `bundleSteal`
enabled. -/
theorem c3_manifest_contents_witness :
    ((includedBundles sampleBundles sampleCfgSteal).map BundleRec.name).Nodup
      ∧ ((makeBundlesConfig sampleBundles sampleCfgSteal).minifiedSource
            = getBundlesPaths sampleCfgSteal ++ "System.bundles = " ++
                jsonStringify (bundlesConfigOf (includedBundles sampleBundles sampleCfgSteal)) ++ ";"
          ∧ ∀ b ∈ includedBundles sampleBundles sampleCfgSteal,
              jsGet (bundlesConfigOf (includedBundles sampleBundles sampleCfgSteal)) b.name
                = some (nodeNames b)) :=
  ⟨by decide, c3_manifest_contents sampleBundles sampleCfgSteal (by decide)⟩

/-- The two `System.paths` statements are never the empty string. -/
theorem bundlePathsText_length_pos (u : String) :
    0 < (bundlePathsText u).length := by
  simp only [bundlePathsText, String.length_append]
  have h1 : 0 < ("System.paths[\"bundles/*.css\"] =\"" : String).length := by decide
  omega

/-- C6: the emitted configuration text is prefixed by the two
`System.paths` remapping statements built from `bundlesPathURL`
exactly when `configuration.loader.bundlesPath` is set (truthy); when
it is absent the prefix is the empty string. -/
theorem c6_paths_prefix (cfg : ConfigurationRec) :
    (getBundlesPaths cfg
        = if jsTruthy cfg.loader.bundlesPath then bundlePathsText cfg.bundlesPathURL else "")
      ∧ (getBundlesPaths cfg = "" ↔ jsTruthy cfg.loader.bundlesPath = false) := by
  refine ⟨rfl, ?_⟩
  cases hjt : jsTruthy cfg.loader.bundlesPath with
  | false => simp [getBundlesPaths, hjt]
  | true =>
    simp only [getBundlesPaths, hjt, if_true, Bool.true_eq_false, iff_false]
    intro heq
    have hlen := bundlePathsText_length_pos cfg.bundlesPathURL
    rw [heq] at hlen
    simp at hlen

/-- C7: the stages of the `multi.js` pipeline body always run in the
fixed order graph construction, ordering, extraction, flattening,
build-type splitting, naming, config emission — for every choice of
options, ES6 flag, stage implementations and initial state. -/
theorem c7_stage_order :
    ∀ (σ : Type) (opts : MultiOptions) (hasES6modules : Bool)
      (fs : PipelineStage → σ → σ) (init : σ),
      (multiRun opts hasES6modules fs init).tr.filter isCoreStage
        = [PipelineStage.graph, PipelineStage.ordering, PipelineStage.extract,
            PipelineStage.flatten, PipelineStage.split, PipelineStage.name,
            PipelineStage.emitConfig] := by
  intro σ opts hasES6modules fs init
  obtain ⟨m, bsteal⟩ := opts
  cases m <;> cases bsteal <;> cases hasES6modules <;>
    simp [multiRun, stepT, stepIfT, isCoreStage]

/-- C8: with `bundleSteal` set, exactly the first bundle of the list is
dropped from the `System.bundles` manifest and every later bundle keeps
its entry; with `bundleSteal` unset every bundle appears (bundle names
pairwise distinct). -/
theorem c8_bundle_steal_manifest (bs : List BundleRec) (cfg : ConfigurationRec)
    (h : (bs.map BundleRec.name).Nodup) :
    (cfg.options.bundleSteal = true →
        (∀ b ∈ bs.drop 1,
            jsGet (bundlesConfigOf (includedBundles bs cfg)) b.name = some (nodeNames b))
          ∧ ∀ b0 ∈ bs.take 1,
              jsGet (bundlesConfigOf (includedBundles bs cfg)) b0.name = none)
      ∧ (cfg.options.bundleSteal = false →
          ∀ b ∈ bs,
            jsGet (bundlesConfigOf (includedBundles bs cfg)) b.name = some (nodeNames b)) := by
  constructor
  · intro hbs
    have hinc : includedBundles bs cfg = bs.drop 1 := by
      simp [includedBundles, hbs]
    have hnd : ((bs.drop 1).map BundleRec.name).Nodup := by
      cases bs with
      | nil => simp
      | cons a t =>
        simp only [List.map_cons, List.nodup_cons] at h
        simpa using h.2
    constructor
    · intro b hb
      rw [hinc, bundlesConfigOf_eq _ hnd]
      exact jsGet_map_eq _ hnd b hb
    · intro b0 hb0
      rw [hinc, bundlesConfigOf_eq _ hnd]
      apply jsGet_eq_none
      cases bs with
      | nil => simp at hb0
      | cons a t =>
        simp only [List.take_succ_cons, List.take_zero, List.mem_singleton] at hb0
        subst hb0
        simp only [List.map_cons, List.nodup_cons] at h
        simp only [List.drop_succ_cons, List.drop_zero, List.map_map]
        intro hmem
        apply h.1
        rcases List.mem_map.mp hmem with ⟨x, hx, hxe⟩
        exact hxe ▸ List.mem_map_of_mem BundleRec.name hx
  · intro hbs
    have hinc : includedBundles bs cfg = bs := by
      simp [includedBundles, hbs]
    intro b hb
    rw [hinc, bundlesConfigOf_eq _ h]
    exact jsGet_map_eq _ h b hb

/-- Witness for C8 at the concrete two-bundle list with `bundleSteal`
enabled: `b2` appears in the manifest and `b1` does not. -/
theorem c8_bundle_steal_manifest_witness :
    (sampleBundles.map BundleRec.name).Nodup
      ∧ ((sampleCfgSteal.options.bundleSteal = true →
            (∀ b ∈ sampleBundles.drop 1,
                jsGet (bundlesConfigOf (includedBundles sampleBundles sampleCfgSteal)) b.name
                  = some (nodeNames b))
              ∧ ∀ b0 ∈ sampleBundles.take 1,
                  jsGet (bundlesConfigOf (includedBundles sampleBundles sampleCfgSteal)) b0.name
                    = none)
          ∧ (sampleCfgSteal.options.bundleSteal = false →
              ∀ b ∈ sampleBundles,
                jsGet (bundlesConfigOf (includedBundles sampleBundles sampleCfgSteal)) b.name
                  = some (nodeNames b))) :=
  ⟨by decide, c8_bundle_steal_manifest sampleBundles sampleCfgSteal (by decide)⟩

/-- C9: the config emission step never mutates the caller's bundles
array: it works on a `slice(0)` copy, so after the call the caller's
reference still holds all original bundles in order, even when
`bundleSteal` shifts the first bundle off the copy.  The returned node
agrees with the pure model. -/
theorem c9_caller_array_unchanged (h : RefHeap) (r : Nat) (cfg : ConfigurationRec)
    (hr : r < h.next) :
    heapGet ((makeBundlesConfigHeap h r cfg).2) r = heapGet h r
      ∧ (makeBundlesConfigHeap h r cfg).1 = makeBundlesConfig (heapGet h r) cfg := by
  have hne : r ≠ h.next := Nat.ne_of_lt hr
  cases hb : cfg.options.bundleSteal with
  | false =>
    constructor
    · simp [makeBundlesConfigHeap, heapAlloc, heapGet, heapSet, hb, hne]
    · simp [makeBundlesConfigHeap, heapAlloc, heapGet, heapSet, hb,
        makeBundlesConfig, includedBundles]
  | true =>
    constructor
    · simp [makeBundlesConfigHeap, heapAlloc, heapGet, heapSet, hb, hne]
    · simp [makeBundlesConfigHeap, heapAlloc, heapGet, heapSet, hb,
        makeBundlesConfig, includedBundles]

/-- Witness for C9 at a concrete heap holding one bundles array behind
reference 0, with `bundleSteal` enabled. -/
theorem c9_caller_array_unchanged_witness :
    0 < sampleHeap.next
      ∧ (heapGet ((makeBundlesConfigHeap sampleHeap 0 sampleCfgSteal).2) 0
            = heapGet sampleHeap 0
          ∧ (makeBundlesConfigHeap sampleHeap 0 sampleCfgSteal).1
              = makeBundlesConfig (heapGet sampleHeap 0) sampleCfgSteal) :=
  ⟨by decide, c9_caller_array_unchanged sampleHeap 0 sampleCfgSteal (by decide)⟩
